import Mathlib

/-!
Verification of the Tower Upgrade Advisor scoring core.

This file is a shallow embedding of the Python sources `src/models.py`,
`src/scoring.py` and `src/profile_manager.py`:

* Python `float` and `Decimal` values are modelled as exact rationals (`ℚ`);
* Python `int` is modelled as `ℤ`;
* Python list indexing (which can raise `IndexError`) is modelled by
  `pyGet`, returning `Option`; functions whose Python counterpart can raise
  an `IndexError` return `Option` and propagate `none`;
* Python `dict`s (insertion ordered, unique keys) are modelled as
  association lists with `dictGet` / `dictSet` / `dictPop`;
* Python's stable `sorted` is modelled by `List.insertionSort`, which is a
  stable sort for the same total preorder.
-/

namespace Tower

/-- Python list indexing `l[i]`, including negative indices counting from the
end; `none` models an `IndexError`. -/
def pyGet {α : Type} (l : List α) (i : ℤ) : Option α :=
  if 0 ≤ i then l[i.toNat]?
  else if 0 ≤ (l.length : ℤ) + i then l[((l.length : ℤ) + i).toNat]? else none

/-- Round half to even on rationals: the tie-breaking used by Python's
built-in `round`. -/
def roundHalfEven (x : ℚ) : ℤ :=
  if x - ⌊x⌋ < 1 / 2 then ⌊x⌋
  else if 1 / 2 < x - ⌊x⌋ then ⌊x⌋ + 1
  else if ⌊x⌋ % 2 = 0 then ⌊x⌋ else ⌊x⌋ + 1

/-- Python `round(x, ndigits)` on the rational model of a float. -/
def pyRound (x : ℚ) (ndigits : ℕ) : ℚ :=
  (roundHalfEven (x * 10 ^ ndigits) : ℚ) / 10 ^ ndigits

/-- Python `dict.get`: first (and with unique keys, only) binding of a key in
an insertion-ordered association list. -/
def dictGet {α : Type} : List (String × α) → String → Option α
  | [], _ => none
  | (k, v) :: t, key => if k = key then some v else dictGet t key

/-- Python `dict[key] = v`: replace the binding in place if the key exists,
otherwise append it. -/
def dictSet {α : Type} : List (String × α) → String → α → List (String × α)
  | [], key, v => [(key, v)]
  | (k, w) :: t, key, v => if k = key then (key, v) :: t else (k, w) :: dictSet t key v

/-- Python `dict.pop(key, None)`: drop the binding of a key. -/
def dictPop {α : Type} : List (String × α) → String → List (String × α)
  | [], _ => []
  | (k, w) :: t, key => if k = key then t else (k, w) :: dictPop t key

/-! ### Data model (src/models.py) -/

/-- `UpgradeLevel` (src/models.py): per-level data for a single upgrade. -/
structure UpgradeLevel where
  level : ℤ
  coin_cost : ℤ
  cumulative_effect : ℚ
  effect_delta : ℚ
deriving DecidableEq

/-- `UpgradeDefinition` (src/models.py): full definition of one workshop
upgrade.  `category` is one of "attack" / "defense" / "utility" for data
accepted by the pydantic model; it is kept as a plain string here. -/
structure UpgradeDefinition where
  id : String
  name : String
  category : String
  effect_unit : String
  effect_type : String
  base_value : ℚ
  max_level : ℤ
  display_order : ℤ
  levels : List UpgradeLevel
deriving DecidableEq

/-- The invariants established by `UpgradeDefinition`'s pydantic validators
(`max_level >= 1`, `_validate_levels`: length, contiguous numbering,
positive strictly increasing coin costs). -/
def UpgradeDefinition.Wf (u : UpgradeDefinition) : Prop :=
  1 ≤ u.max_level ∧
  (u.levels.length : ℤ) = u.max_level ∧
  (∀ i : ℕ, ∀ h : i < u.levels.length, (u.levels.get ⟨i, h⟩).level = (i : ℤ) + 1) ∧
  (∀ l ∈ u.levels, 0 < l.coin_cost) ∧
  (∀ i : ℕ, ∀ h : i < u.levels.length, 0 < i →
    (u.levels.get ⟨i - 1, Nat.lt_of_le_of_lt (Nat.sub_le i 1) h⟩).coin_cost <
      (u.levels.get ⟨i, h⟩).coin_cost)

/-- `UpgradeDatabase` (src/models.py). -/
structure UpgradeDatabase where
  version : String
  game_version : String
  source : String
  upgrades : List UpgradeDefinition
deriving DecidableEq

/-- `UpgradeDatabase.get_upgrade`: first upgrade with the given id. -/
def UpgradeDatabase.get_upgrade (db : UpgradeDatabase) (upgrade_id : String) :
    Option UpgradeDefinition :=
  db.upgrades.find? (fun u => u.id == upgrade_id)

/-- `LabResearchLevel` (src/models.py). -/
structure LabResearchLevel where
  level : ℤ
  value : ℚ
deriving DecidableEq

/-- `LabResearchDefinition` (src/models.py).  `boost_type` is
"multiplicative" or "additive" for data accepted by the pydantic model. -/
structure LabResearchDefinition where
  id : String
  name : String
  boost_type : String
  max_level : ℤ
  levels : List LabResearchLevel
deriving DecidableEq

/-- The invariants established by `LabResearchDefinition`'s validators. -/
def LabResearchDefinition.Wf (r : LabResearchDefinition) : Prop :=
  1 ≤ r.max_level ∧
  (r.levels.length : ℤ) = r.max_level ∧
  (∀ i : ℕ, ∀ h : i < r.levels.length, (r.levels.get ⟨i, h⟩).level = (i : ℤ) + 1)

/-- `LabResearchDatabase` (src/models.py). -/
structure LabResearchDatabase where
  researches : List LabResearchDefinition
deriving DecidableEq

/-- `LabResearchDatabase.get_research`. -/
def LabResearchDatabase.get_research (db : LabResearchDatabase) (research_id : String) :
    Option LabResearchDefinition :=
  db.researches.find? (fun r => r.id == research_id)

/-- `LabResearchDatabase.get_value` (src/models.py).  The source guards the
index (`idx = min(level, max_level, len(levels)) - 1` followed by
`idx < 0`), so the final list access is always in range; the `getD 0`
default is therefore unreachable. -/
def LabResearchDatabase.get_value (db : LabResearchDatabase) (research_id : String)
    (level : ℤ) : ℚ :=
  match db.get_research research_id with
  | none => 1
  | some research =>
    if level ≤ 0 then
      if research.boost_type = "multiplicative" then 1 else 0
    else
      let idx := min (min level research.max_level) (research.levels.length : ℤ) - 1
      if idx < 0 then
        if research.boost_type = "multiplicative" then 1 else 0
      else ((pyGet research.levels idx).map LabResearchLevel.value).getD 0

/-- `ScoringWeights` (src/models.py); each slider is clamped to `[0, 2]` by
the pydantic field constraints, defaulting to 1.0. -/
structure ScoringWeights where
  attack : ℚ := 1
  defense : ℚ := 1
  utility : ℚ := 1
deriving DecidableEq

/-- `ScoringWeights.for_category` (src/models.py) restricted to the domain
on which the engines call it: `getattr(self, category, 1.0)` hits a weight
field for the three `Literal` category values of `UpgradeDefinition`, and
the 1.0 default for a string that is no attribute of the instance at all.
On strings naming one of the instance's other attributes (methods,
pydantic machinery) the real `getattr` instead returns that attribute;
that full behaviour is modelled by `for_category_getattr` below, which
agrees with this function wherever the engines use it. -/
def ScoringWeights.for_category (w : ScoringWeights) (category : String) : ℚ :=
  if category = "attack" then w.attack
  else if category = "defense" then w.defense
  else if category = "utility" then w.utility
  else 1

/-- Result of a Python attribute lookup on a `ScoringWeights` instance:
either a float (a weight field, or the numeric default), or some
non-float attribute such as a bound method or the pydantic machinery. -/
inductive PyAttrValue where
  | float (q : ℚ)
  | attr (name : String)
deriving DecidableEq

/-- Non-field attribute names certainly present on a `ScoringWeights`
instance: the method the class itself defines, and pydantic `BaseModel`
API (this repository itself calls `model_copy` / `model_dump_json` /
`model_validate` on its model instances). -/
def scoringWeightsExtraAttrs : List String :=
  ["for_category", "model_config", "model_copy", "model_dump", "model_dump_json",
   "model_fields", "model_validate"]

/-- `ScoringWeights.for_category` (src/models.py) modelled over the
instance's full attribute namespace: `getattr(self, category, 1.0)`
returns the weight field for the three field names, the attribute itself
for any other existing attribute (`extra_attrs` lists the instance's
non-field attribute names), and the 1.0 default only for strings that are
not attributes at all.  It never raises. -/
def ScoringWeights.for_category_getattr (w : ScoringWeights) (extra_attrs : List String)
    (category : String) : PyAttrValue :=
  if category = "attack" then .float w.attack
  else if category = "defense" then .float w.defense
  else if category = "utility" then .float w.utility
  else if category ∈ extra_attrs then .attr category
  else .float 1

/-- `Profile` (src/models.py).  Timestamps are opaque and modelled as `ℤ`. -/
structure Profile where
  id : String
  name : String
  created_at : ℤ
  updated_at : ℤ
  available_coins : ℤ
  levels : List (String × ℤ)
  lab_levels : List (String × ℤ)
  weights : ScoringWeights
  tags : List String
deriving DecidableEq

/-- `Profile.get_level`: `self.levels.get(upgrade_id, 0)`. -/
def Profile.get_level (p : Profile) (upgrade_id : String) : ℤ :=
  (dictGet p.levels upgrade_id).getD 0

/-- `RankedUpgrade` (src/models.py). -/
structure RankedUpgrade where
  upgrade_id : String
  upgrade_name : String
  category : String
  current_level : ℤ
  next_level : ℤ
  coin_cost : ℤ
  current_effect : ℚ
  next_effect : ℚ
  marginal_benefit : ℚ
  score : ℚ
  affordable : Bool
  scoring_method : String
deriving DecidableEq

/-! ### Pure scoring helpers (src/scoring.py) -/

/-- `_SCORE_PRECISION` (src/scoring.py). -/
def SCORE_PRECISION : ℕ := 12

/-- `compute_marginal_score` (src/scoring.py).  `none` models the
`IndexError` the Python code would raise on an out-of-range list access. -/
def compute_marginal_score (upgrade : UpgradeDefinition) (current_level : ℤ) :
    Option (ℚ × ℤ × ℚ × ℚ × ℚ) :=
  if upgrade.max_level ≤ current_level then
    let eff : ℚ :=
      match upgrade.levels.getLast? with
      | some lvl => lvl.cumulative_effect
      | none => upgrade.base_value
    some (0, 0, eff, eff, 0)
  else
    match (if current_level ≤ 0 then some upgrade.base_value
           else (pyGet upgrade.levels (current_level - 1)).map UpgradeLevel.cumulative_effect) with
    | none => none
    | some current_effect =>
      match pyGet upgrade.levels current_level with
      | none => none
      | some next_level_data =>
        let coin_cost : ℤ := next_level_data.coin_cost
        let next_effect : ℚ := next_level_data.cumulative_effect
        let marginal_benefit : ℚ := next_effect - current_effect
        if coin_cost ≤ 0 then
          some (0, coin_cost, current_effect, next_effect, marginal_benefit)
        else
          some (marginal_benefit / (coin_cost : ℚ), coin_cost, current_effect, next_effect,
            marginal_benefit)

/-- `_sort_key` (src/scoring.py): `(-round(score, 12), coin_cost, name)`,
compared lexicographically exactly as Python compares tuples. -/
def sort_key (r : RankedUpgrade) : ℚ ×ₗ (ℤ ×ₗ String) :=
  toLex (-(pyRound r.score SCORE_PRECISION), toLex (r.coin_cost, r.upgrade_name))

/-- The shared deterministic sort relation: ascending in `sort_key`, hence
score descending, then cost ascending, then name ascending. -/
def sortLE (a b : RankedUpgrade) : Prop :=
  sort_key a ≤ sort_key b

instance : DecidableRel sortLE :=
  fun a b => (inferInstance : Decidable (sort_key a ≤ sort_key b))

instance : IsTotal RankedUpgrade sortLE :=
  ⟨fun a b => le_total (sort_key a) (sort_key b)⟩

instance : IsTrans RankedUpgrade sortLE :=
  ⟨fun _ _ _ hab hbc => le_trans hab hbc⟩

/-- `_build_ranked` (src/scoring.py). -/
def build_ranked (upgrade : UpgradeDefinition) (profile : Profile) (score : ℚ)
    (coin_cost : ℤ) (current_effect next_effect marginal_benefit : ℚ)
    (method : String) : RankedUpgrade :=
  let current_level := profile.get_level upgrade.id
  { upgrade_id := upgrade.id
    upgrade_name := upgrade.name
    category := upgrade.category
    current_level := current_level
    next_level := current_level + 1
    coin_cost := coin_cost
    current_effect := current_effect
    next_effect := next_effect
    marginal_benefit := marginal_benefit
    score := pyRound score SCORE_PRECISION
    affordable := decide (coin_cost ≤ profile.available_coins)
    scoring_method := method }

/-! ### DPS calculation (src/scoring.py, ported from the reference
calculator).  `Decimal` arithmetic is modelled exactly in `ℚ`. -/

/-- `_RAPID_FIRE_BONUS` (src/scoring.py). -/
def RAPID_FIRE_BONUS : ℚ := 4

/-- `_RAPID_FIRE_DURATION` (src/scoring.py). -/
def RAPID_FIRE_DURATION : ℚ := 1

/-- `_DPS_UPGRADE_IDS` (src/scoring.py); only membership is used. -/
def DPS_UPGRADE_IDS : List String :=
  ["damage", "attack_speed", "crit_chance", "crit_factor", "multishot_chance",
   "multishot_targets", "rapid_fire_chance", "bounce_chance", "bounce_targets"]

/-- `_LAB_BOOST_MAP` (src/scoring.py), in dict insertion order. -/
def LAB_BOOST_MAP : List (String × String) :=
  [("lab_damage", "damage"), ("lab_crit_factor", "crit_factor"),
   ("lab_attack_speed", "attack_speed"), ("lab_defense_flat", "defense_absolute"),
   ("lab_defense_percent", "defense_percent")]

/-- `_get_upgrade_value` (src/scoring.py): cumulative effect of an upgrade at
a level, clamped above by `max_level`; `none` models an `IndexError`. -/
def get_upgrade_value (upgrades : UpgradeDatabase) (upgrade_id : String) (level : ℤ) :
    Option ℚ :=
  match upgrades.get_upgrade upgrade_id with
  | none => some 0
  | some u =>
    if level ≤ 0 then some u.base_value
    else
      let level := if u.max_level < level then u.max_level else level
      (pyGet u.levels (level - 1)).map UpgradeLevel.cumulative_effect

/-- The iteration of `_get_lab_multiplier`'s `for` loop over
`_LAB_BOOST_MAP.items()` (src/scoring.py). -/
def get_lab_multiplier_loop (lab : LabResearchDatabase) (profile : Profile)
    (workshop_upgrade_id : String) : List (String × String) → ℚ
  | [] => 1
  | (lab_id, ws_id) :: rest =>
    if ws_id = workshop_upgrade_id then
      let level := (dictGet profile.lab_levels lab_id).getD 0
      if level ≤ 0 then
        match lab.get_research lab_id with
        | some research => if research.boost_type = "additive" then 0 else 1
        | none => 1
      else lab.get_value lab_id level
    else get_lab_multiplier_loop lab profile workshop_upgrade_id rest

/-- `_get_lab_multiplier` (src/scoring.py). -/
def get_lab_multiplier (lab : Option LabResearchDatabase) (profile : Profile)
    (workshop_upgrade_id : String) : ℚ :=
  match lab with
  | none => 1
  | some l => get_lab_multiplier_loop l profile workshop_upgrade_id LAB_BOOST_MAP

/-- `_DPSState` (src/scoring.py): snapshot of the nine attack stats. -/
structure DPSState where
  damage : ℚ
  attack_speed : ℚ
  crit_chance : ℚ
  crit_factor : ℚ
  multishot_chance : ℚ
  multishot_targets : ℚ
  rapid_fire_chance : ℚ
  bounce_chance : ℚ
  bounce_targets : ℚ
deriving DecidableEq

/-- `_DPSState.__init__` (src/scoring.py): read the nine stats from the
catalog at the profile's levels, then apply lab multipliers to damage,
attack speed and crit factor when a lab database is provided. -/
def mkDPSState (upgrades : UpgradeDatabase) (profile : Profile)
    (lab : Option LabResearchDatabase) : Option DPSState := do
  let damage ← get_upgrade_value upgrades "damage" (profile.get_level "damage")
  let attack_speed ← get_upgrade_value upgrades "attack_speed" (profile.get_level "attack_speed")
  let crit_chance ← get_upgrade_value upgrades "crit_chance" (profile.get_level "crit_chance")
  let crit_factor ← get_upgrade_value upgrades "crit_factor" (profile.get_level "crit_factor")
  let multishot_chance ←
    get_upgrade_value upgrades "multishot_chance" (profile.get_level "multishot_chance")
  let multishot_targets ←
    get_upgrade_value upgrades "multishot_targets" (profile.get_level "multishot_targets")
  let rapid_fire_chance ←
    get_upgrade_value upgrades "rapid_fire_chance" (profile.get_level "rapid_fire_chance")
  let bounce_chance ← get_upgrade_value upgrades "bounce_chance" (profile.get_level "bounce_chance")
  let bounce_targets ←
    get_upgrade_value upgrades "bounce_targets" (profile.get_level "bounce_targets")
  match lab with
  | none =>
    some ⟨damage, attack_speed, crit_chance, crit_factor, multishot_chance, multishot_targets,
      rapid_fire_chance, bounce_chance, bounce_targets⟩
  | some _ =>
    some ⟨damage * get_lab_multiplier lab profile "damage",
      attack_speed * get_lab_multiplier lab profile "attack_speed",
      crit_chance, crit_factor * get_lab_multiplier lab profile "crit_factor",
      multishot_chance, multishot_targets, rapid_fire_chance, bounce_chance, bounce_targets⟩

/-- `_DPSState.with_override` (src/scoring.py): copy with one stat replaced;
ids outside the nine slots leave the state unchanged. -/
def DPSState.with_override (s : DPSState) (upgrade_id : String) (value : ℚ) : DPSState :=
  if upgrade_id = "damage" then { s with damage := value }
  else if upgrade_id = "attack_speed" then { s with attack_speed := value }
  else if upgrade_id = "crit_chance" then { s with crit_chance := value }
  else if upgrade_id = "crit_factor" then { s with crit_factor := value }
  else if upgrade_id = "multishot_chance" then { s with multishot_chance := value }
  else if upgrade_id = "multishot_targets" then { s with multishot_targets := value }
  else if upgrade_id = "rapid_fire_chance" then { s with rapid_fire_chance := value }
  else if upgrade_id = "bounce_chance" then { s with bounce_chance := value }
  else if upgrade_id = "bounce_targets" then { s with bounce_targets := value }
  else s

/-- `compute_dps` (src/scoring.py), in exact rational arithmetic. -/
def compute_dps (state : DPSState) : ℚ :=
  let crit_mult :=
    1 - state.crit_chance / 100 + state.crit_chance / 100 * state.crit_factor
  let ms_mult :=
    1 - state.multishot_chance / 100 + state.multishot_chance / 100 * state.multishot_targets
  let bounce_mult :=
    1 - state.bounce_chance / 100 + state.bounce_chance / 100 * state.bounce_targets
  let attack_speed_final :=
    if 0 < state.rapid_fire_chance ∧ 0 < state.attack_speed then
      let avg_time_between_procs := 1 / state.attack_speed * (100 / state.rapid_fire_chance)
      let avg_increase :=
        RAPID_FIRE_BONUS * RAPID_FIRE_DURATION / (RAPID_FIRE_DURATION + avg_time_between_procs)
      state.attack_speed * (1 + avg_increase / 100)
    else state.attack_speed
  state.damage * attack_speed_final * crit_mult * ms_mult * bounce_mult

/-! ### Ranking engines (src/scoring.py) -/

/-- The accumulation loop of `PerCategoryEngine.rank` (src/scoring.py):
`best` maps each category to its current winner (the Python code keeps the
winner's sort key in the parallel dict `best_key`, always `_sort_key` of the
stored winner, so only the winner is carried here). -/
def perCategoryLoop (profile : Profile) :
    List UpgradeDefinition → List (String × RankedUpgrade) →
    Option (List (String × RankedUpgrade))
  | [], best => some best
  | u :: rest, best =>
    let current_level := profile.get_level u.id
    if u.max_level ≤ current_level then perCategoryLoop profile rest best
    else
      match compute_marginal_score u current_level with
      | none => none
      | some (score, cost, cur_eff, nxt_eff, mb) =>
        if score ≤ 0 then perCategoryLoop profile rest best
        else
          let candidate := build_ranked u profile score cost cur_eff nxt_eff mb
            "per_category_best"
          match dictGet best u.category with
          | none => perCategoryLoop profile rest (dictSet best u.category candidate)
          | some prev =>
            if sort_key candidate < sort_key prev then
              perCategoryLoop profile rest (dictSet best u.category candidate)
            else perCategoryLoop profile rest best

/-- `PerCategoryEngine.rank` (src/scoring.py). -/
def perCategoryRank (upgrades : UpgradeDatabase) (profile : Profile) :
    Option (List RankedUpgrade) :=
  (perCategoryLoop profile upgrades.upgrades []).map
    (fun best => List.insertionSort sortLE (best.map Prod.snd))

/-- The accumulation loop of `BalancedEngine.rank` (src/scoring.py). -/
def balancedLoop (weights : ScoringWeights) (profile : Profile) :
    List UpgradeDefinition → Option (List RankedUpgrade)
  | [] => some []
  | u :: rest =>
    let current_level := profile.get_level u.id
    if u.max_level ≤ current_level then balancedLoop weights profile rest
    else
      match compute_marginal_score u current_level with
      | none => none
      | some (base_score, cost, cur_eff, nxt_eff, mb) =>
        if base_score ≤ 0 then balancedLoop weights profile rest
        else
          let weight := weights.for_category u.category
          let weighted_score := base_score * weight
          (balancedLoop weights profile rest).map
            (fun l => build_ranked u profile weighted_score cost cur_eff nxt_eff mb
              "balanced" :: l)

/-- `BalancedEngine.rank` (src/scoring.py), with the engine's weights passed
explicitly. -/
def balancedRank (weights : ScoringWeights) (upgrades : UpgradeDatabase)
    (profile : Profile) : Option (List RankedUpgrade) :=
  (balancedLoop weights profile upgrades.upgrades).map (List.insertionSort sortLE)

/-- The accumulation loop of `ReferenceEngine.rank` (src/scoring.py). -/
def referenceLoop (lab : Option LabResearchDatabase) (profile : Profile)
    (current_state : DPSState) (current_dps : ℚ) :
    List UpgradeDefinition → Option (List RankedUpgrade)
  | [] => some []
  | u :: rest =>
    let current_level := profile.get_level u.id
    if u.max_level ≤ current_level then
      referenceLoop lab profile current_state current_dps rest
    else
      match pyGet u.levels current_level with
      | none => none
      | some next_level_data =>
        let coin_cost := next_level_data.coin_cost
        if coin_cost ≤ 0 then referenceLoop lab profile current_state current_dps rest
        else
          let next_effect := next_level_data.cumulative_effect
          match (if current_level ≤ 0 then some u.base_value
                 else (pyGet u.levels (current_level - 1)).map
                   UpgradeLevel.cumulative_effect) with
          | none => none
          | some current_effect =>
            let marginal_benefit := next_effect - current_effect
            if u.id ∈ DPS_UPGRADE_IDS then
              let lab_mult := get_lab_multiplier lab profile u.id
              let next_val_with_lab :=
                if u.id = "damage" ∨ u.id = "attack_speed" ∨ u.id = "crit_factor" then
                  next_effect * lab_mult
                else next_effect
              let next_state := current_state.with_override u.id next_val_with_lab
              let score := (compute_dps next_state - current_dps) / (coin_cost : ℚ)
              if score ≤ 0 then referenceLoop lab profile current_state current_dps rest
              else
                (referenceLoop lab profile current_state current_dps rest).map
                  (fun l => build_ranked u profile score coin_cost current_effect next_effect
                    marginal_benefit "reference" :: l)
            else
              if marginal_benefit ≤ 0 then
                referenceLoop lab profile current_state current_dps rest
              else
                let score := marginal_benefit / (coin_cost : ℚ)
                if score ≤ 0 then referenceLoop lab profile current_state current_dps rest
                else
                  (referenceLoop lab profile current_state current_dps rest).map
                    (fun l => build_ranked u profile score coin_cost current_effect next_effect
                      marginal_benefit "reference" :: l)

/-- `ReferenceEngine.rank` (src/scoring.py), with the engine's lab database
passed explicitly. -/
def referenceRank (lab : Option LabResearchDatabase) (upgrades : UpgradeDatabase)
    (profile : Profile) : Option (List RankedUpgrade) := do
  let current_state ← mkDPSState upgrades profile lab
  let current_dps := compute_dps current_state
  let results ← referenceLoop lab profile current_state current_dps upgrades.upgrades
  some (List.insertionSort sortLE results)

/-! ### Profile manager (src/profile_manager.py), with the on-disk profile
directory modelled as an association list keyed by profile id (file name). -/

/-- The profile directory: one JSON file per profile id. -/
abbrev ProfileStore := List (String × Profile)

/-- `ProfileManager.get_profile`. -/
def getProfile (store : ProfileStore) (profile_id : String) : Option Profile :=
  dictGet store profile_id

/-- `ProfileManager._save`: atomic replace of `{profile.id}.json`. -/
def saveProfile (store : ProfileStore) (profile : Profile) : ProfileStore :=
  dictSet store profile.id profile

/-- `ProfileManager.update_level` (src/profile_manager.py).  The store is
threaded explicitly; `Except.error` models the `ValueError` raised for a
negative level, and the store component is the state of the directory after
the call. -/
def updateLevel (store : ProfileStore) (profile_id upgrade_id : String) (level : ℤ)
    (now : ℤ) : ProfileStore × Except String (Option Profile) :=
  match getProfile store profile_id with
  | none => (store, Except.ok none)
  | some profile =>
    if level < 0 then (store, Except.error "Level must be >= 0")
    else
      let new_levels :=
        if level = 0 then dictPop profile.levels upgrade_id
        else dictSet profile.levels upgrade_id level
      let updated := { profile with levels := new_levels, updated_at := now }
      (saveProfile store updated, Except.ok (some updated))

/-! ### Concrete sample data, used to exercise the theorems below. -/

/-- A two-level attack upgrade. -/
def uDamage : UpgradeDefinition :=
  ⟨"damage", "Damage", "attack", "dmg", "additive", 0, 2, 0,
    [⟨1, 50, 5, 5⟩, ⟨2, 120, 9, 4⟩]⟩

/-- A one-level attack upgrade contributing to DPS. -/
def uSpeed : UpgradeDefinition :=
  ⟨"attack_speed", "Attack Speed", "attack", "mult", "multiplicative", 1, 1, 1,
    [⟨1, 100, 3 / 2, 1 / 2⟩]⟩

/-- A one-level defense upgrade. -/
def uHealth : UpgradeDefinition :=
  ⟨"health", "Health", "defense", "hp", "additive", 10, 1, 0, [⟨1, 40, 30, 20⟩]⟩

/-- A small catalog spanning two categories. -/
def sampleDB : UpgradeDatabase := ⟨"1", "0.1", "test", [uDamage, uSpeed, uHealth]⟩

/-- A profile owning level 1 of `uDamage`. -/
def sampleProfile : Profile :=
  ⟨"p1", "Main", 0, 0, 100, [("damage", 1)], [], ⟨1, 1, 1⟩, []⟩

/-- A profile store holding `sampleProfile` under its id. -/
def sampleStore : ProfileStore := [("p1", sampleProfile)]

/-- Weights zeroing the attack category. -/
def zeroAttackWeights : ScoringWeights := ⟨0, 1, 1⟩

/-- A placeholder used only as the default of `List.getD`. -/
def defaultRanked : RankedUpgrade := ⟨"", "", "", 0, 0, 0, 0, 0, 0, 0, false, ""⟩

/-- Concrete per-category output on the sample data. -/
def pcOut : List RankedUpgrade := (perCategoryRank sampleDB sampleProfile).getD []

/-- Concrete balanced output with neutral weights on the sample data. -/
def balOut : List RankedUpgrade := (balancedRank ⟨1, 1, 1⟩ sampleDB sampleProfile).getD []

/-- Concrete balanced output with the attack weight zeroed. -/
def balOutZero : List RankedUpgrade :=
  (balancedRank zeroAttackWeights sampleDB sampleProfile).getD []

/-- Concrete reference-engine output on the sample data. -/
def refOut : List RankedUpgrade := (referenceRank none sampleDB sampleProfile).getD []

/-- A multiplicative lab research with two levels. -/
def sampleResearch : LabResearchDefinition :=
  ⟨"lab_damage", "Lab Damage", "multiplicative", 2, [⟨1, 11 / 10⟩, ⟨2, 6 / 5⟩]⟩

/-- An additive lab research with one level. -/
def sampleAdditive : LabResearchDefinition :=
  ⟨"lab_defense_flat", "Lab Defense", "additive", 1, [⟨1, 5⟩]⟩

/-- A small lab research database. -/
def sampleLab : LabResearchDatabase := ⟨[sampleResearch, sampleAdditive]⟩

/-- A DPS state with every chance stat 0 but non-neutral factors. -/
def sampleDPS : DPSState := ⟨5, 2, 0, 3, 0, 7, 0, 0, 4⟩

/-! ### Helper lemmas -/

theorem pyGet_eq_some {α : Type} (l : List α) (i : ℤ) (h0 : 0 ≤ i)
    (h : i.toNat < l.length) : pyGet l i = some (l.get ⟨i.toNat, h⟩) := by
  unfold pyGet
  rw [if_pos h0, List.getElem?_eq_getElem h]
  rfl

theorem pyRound_zero (ndigits : ℕ) : pyRound 0 ndigits = 0 := by
  unfold pyRound roundHalfEven
  norm_num

theorem dictGet_dictSet_self {α : Type} (l : List (String × α)) (k : String) (v : α) :
    dictGet (dictSet l k v) k = some v := by
  induction l with
  | nil => simp [dictSet, dictGet]
  | cons p t ih =>
    obtain ⟨a, b⟩ := p
    by_cases h : a = k
    · simp [dictSet, dictGet, h]
    · simp [dictSet, dictGet, h, ih]

theorem dictGet_eq_none_iff {α : Type} (l : List (String × α)) (k : String) :
    dictGet l k = none ↔ k ∉ l.map Prod.fst := by
  induction l with
  | nil => simp [dictGet]
  | cons p t ih =>
    obtain ⟨a, b⟩ := p
    by_cases h : a = k
    · simp [dictGet, h]
    · simp [dictGet, h, ih, Ne.symm h]

theorem dictGet_dictPop_self {α : Type} (l : List (String × α)) (k : String)
    (h : (l.map Prod.fst).Nodup) : dictGet (dictPop l k) k = none := by
  induction l with
  | nil => rfl
  | cons p t ih =>
    obtain ⟨a, b⟩ := p
    simp only [List.map_cons, List.nodup_cons] at h
    by_cases hak : a = k
    · subst hak
      simpa [dictPop, dictGet_eq_none_iff] using h.1
    · simpa [dictPop, dictGet, hak] using ih h.2

instance (u : UpgradeDefinition) : Decidable u.Wf :=
  inferInstanceAs (Decidable (1 ≤ u.max_level ∧
    (u.levels.length : ℤ) = u.max_level ∧
    (∀ i : ℕ, ∀ h : i < u.levels.length, (u.levels.get ⟨i, h⟩).level = (i : ℤ) + 1) ∧
    (∀ l ∈ u.levels, 0 < l.coin_cost) ∧
    (∀ i : ℕ, ∀ h : i < u.levels.length, 0 < i →
      (u.levels.get ⟨i - 1, Nat.lt_of_le_of_lt (Nat.sub_le i 1) h⟩).coin_cost <
        (u.levels.get ⟨i, h⟩).coin_cost)))

instance (r : LabResearchDefinition) : Decidable r.Wf :=
  inferInstanceAs (Decidable (1 ≤ r.max_level ∧
    (r.levels.length : ℤ) = r.max_level ∧
    (∀ i : ℕ, ∀ h : i < r.levels.length, (r.levels.get ⟨i, h⟩).level = (i : ℤ) + 1)))

/-! ### Claim theorems -/

/-- C1: for any upgrade and any `current_level ≥ max_level`,
`compute_marginal_score` returns score 0, coin cost 0, marginal benefit 0,
and current effect = next effect = the final level's cumulative effect (the
base value when the levels list is empty).  The result is `some …`
unconditionally, so a stale profile level strictly beyond `max_level` never
reaches an out-of-bounds list access. -/
theorem compute_marginal_score_maxed (upgrade : UpgradeDefinition) (current_level : ℤ)
    (h : upgrade.max_level ≤ current_level) :
    compute_marginal_score upgrade current_level =
      some (0, 0,
        ((upgrade.levels.getLast?).map UpgradeLevel.cumulative_effect).getD upgrade.base_value,
        ((upgrade.levels.getLast?).map UpgradeLevel.cumulative_effect).getD upgrade.base_value,
        0) := by
  unfold compute_marginal_score
  rw [if_pos h]
  cases upgrade.levels.getLast? <;> simp

/-- Witness for C1 on a concrete maxed upgrade. -/
theorem compute_marginal_score_maxed_witness :
    compute_marginal_score uDamage 2 = some (0, 0, 9, 9, 0) := by
  rw [compute_marginal_score_maxed uDamage 2 (by decide)]
  rfl

/-- C8: on any upgrade satisfying the model validators and any
`current_level ≥ 0`, `compute_marginal_score` returns normally (`some`):
every list access in both the maxed and the non-maxed branch is in
bounds. -/
theorem compute_marginal_score_total (upgrade : UpgradeDefinition) (current_level : ℤ)
    (hw : upgrade.Wf) (h0 : 0 ≤ current_level) :
    (compute_marginal_score upgrade current_level).isSome := by
  obtain ⟨hmax, hlen, -, -, -⟩ := hw
  unfold compute_marginal_score
  by_cases hm : upgrade.max_level ≤ current_level
  · rw [if_pos hm]
    cases upgrade.levels.getLast? <;> simp
  · rw [if_neg hm]
    push_neg at hm
    have hnext : pyGet upgrade.levels current_level =
        some (upgrade.levels.get ⟨current_level.toNat, by omega⟩) :=
      pyGet_eq_some _ _ h0 (by omega)
    rcases le_or_lt current_level 0 with hle | hpos
    · rw [if_pos hle, hnext]
      dsimp only
      rw [apply_ite Option.isSome]
      simp
    · have hprev : pyGet upgrade.levels (current_level - 1) =
          some (upgrade.levels.get ⟨(current_level - 1).toNat, by omega⟩) :=
        pyGet_eq_some _ _ (by omega) (by omega)
      rw [if_neg (by omega), hprev]
      simp only [Option.map_some']
      rw [hnext]
      dsimp only
      rw [apply_ite Option.isSome]
      simp

/-- Witness for C8 on a concrete well-formed upgrade. -/
theorem compute_marginal_score_total_witness :
    uDamage.Wf ∧ (compute_marginal_score uDamage 1).isSome = true :=
  ⟨by decide, compute_marginal_score_total uDamage 1 (by decide) (by decide)⟩

/-- On the three category field names — the only values the engines pass —
the full `getattr` model agrees with the float-valued restriction used by
the ranking engines, for any attribute namespace. -/
theorem for_category_getattr_agrees (w : ScoringWeights) (extra_attrs : List String)
    (category : String)
    (h : category = "attack" ∨ category = "defense" ∨ category = "utility") :
    w.for_category_getattr extra_attrs category = PyAttrValue.float (w.for_category category) := by
  rcases h with h | h | h <;> subst h <;> rfl

/-- C6 counterexample: `"model_copy"` is not one of the known category
names, yet `getattr(self, "model_copy", 1.0)` finds pydantic's bound
`model_copy` method on the instance (this repository itself calls it) and
returns that attribute, not the neutral 1.0 — so the claim's "returns 1.0
for every unknown category string" fails at this input. -/
theorem for_category_unknown_cex :
    ("model_copy" ≠ "attack" ∧ "model_copy" ≠ "defense" ∧ "model_copy" ≠ "utility") ∧
    ScoringWeights.for_category_getattr ⟨1, 1, 1⟩ scoringWeightsExtraAttrs "model_copy" ≠
      PyAttrValue.float 1 := by
  decide

/-- C6 amended: `for_category` never raises; for a category string outside
the three known names it returns the neutral default 1.0 exactly when the
string is not an attribute of the `ScoringWeights` object at all, while a
string naming one of the instance's other attributes (its method
`for_category`, pydantic's `model_config`, `model_copy`, ...) returns that
attribute instead of 1.0. -/
theorem for_category_unknown_amended (w : ScoringWeights) (extra_attrs : List String)
    (category : String)
    (h1 : category ≠ "attack") (h2 : category ≠ "defense") (h3 : category ≠ "utility") :
    (category ∉ extra_attrs →
      w.for_category_getattr extra_attrs category = PyAttrValue.float 1) ∧
    (category ∈ extra_attrs →
      w.for_category_getattr extra_attrs category = PyAttrValue.attr category) := by
  unfold ScoringWeights.for_category_getattr
  rw [if_neg h1, if_neg h2, if_neg h3]
  constructor
  · intro h4
    rw [if_neg h4]
  · intro h4
    rw [if_pos h4]

/-- Witness for the amended C6: a string that is no attribute of the
instance gets the 1.0 default, and an existing non-field attribute name
gets the attribute. -/
theorem for_category_unknown_amended_witness :
    ScoringWeights.for_category_getattr ⟨2, 1 / 2, 3 / 2⟩ scoringWeightsExtraAttrs "economy" =
      PyAttrValue.float 1 ∧
    ScoringWeights.for_category_getattr ⟨2, 1 / 2, 3 / 2⟩ scoringWeightsExtraAttrs
      "model_copy" = PyAttrValue.attr "model_copy" :=
  ⟨(for_category_unknown_amended ⟨2, 1 / 2, 3 / 2⟩ scoringWeightsExtraAttrs "economy"
      (by decide) (by decide) (by decide)).1 (by decide),
   (for_category_unknown_amended ⟨2, 1 / 2, 3 / 2⟩ scoringWeightsExtraAttrs "model_copy"
      (by decide) (by decide) (by decide)).2 (by decide)⟩

/-- C4: with all four chance stats at 0, `compute_dps` is exactly
damage × attack_speed — each chance multiplier collapses to 1 whatever the
crit factor and target counts are, and the rapid-fire branch is not
taken. -/
theorem compute_dps_no_chances (state : DPSState) (hc : state.crit_chance = 0)
    (hm : state.multishot_chance = 0) (hb : state.bounce_chance = 0)
    (hr : state.rapid_fire_chance = 0) :
    compute_dps state = state.damage * state.attack_speed := by
  unfold compute_dps
  rw [hc, hm, hb, hr]
  norm_num

/-- Witness for C4 on a concrete chance-free state with non-neutral
factors. -/
theorem compute_dps_no_chances_witness : compute_dps sampleDPS = 10 :=
  (compute_dps_no_chances sampleDPS rfl rfl rfl rfl).trans (by with_unfolding_all decide)

/-- C7: `get_value` returns 1.0 when the research id is unknown; for a known
research queried at level ≤ 0 it returns 1.0 for a multiplicative boost and
0.0 for an additive one; for a known well-formed research at level ≥ 1 it
returns the value recorded at the level clamped to `max_level`. -/
theorem get_value_spec (db : LabResearchDatabase) (research_id : String) (level : ℤ) :
    (db.get_research research_id = none → db.get_value research_id level = 1) ∧
    (∀ r, db.get_research research_id = some r → level ≤ 0 →
      db.get_value research_id level =
        if r.boost_type = "multiplicative" then 1 else 0) ∧
    (∀ r, db.get_research research_id = some r → r.Wf → 1 ≤ level →
      ∃ lvl, pyGet r.levels (min level r.max_level - 1) = some lvl ∧
        lvl.level = min level r.max_level ∧
        db.get_value research_id level = lvl.value) := by
  refine ⟨?_, ?_, ?_⟩
  · intro h
    unfold LabResearchDatabase.get_value
    rw [h]
  · intro r hr hl
    unfold LabResearchDatabase.get_value
    rw [hr]
    exact if_pos hl
  · intro r hr hw hl
    obtain ⟨hmax, hlen, hnum⟩ := hw
    have hm1 : 1 ≤ min level r.max_level := le_min hl hmax
    have hmlen : min level r.max_level ≤ (r.levels.length : ℤ) := by
      rw [hlen]; exact min_le_right _ _
    have hminlen : min (min level r.max_level) (r.levels.length : ℤ) =
        min level r.max_level := min_eq_left hmlen
    have hidxlt : (min level r.max_level - 1).toNat < r.levels.length := by omega
    have hget := pyGet_eq_some r.levels (min level r.max_level - 1) (by omega) hidxlt
    refine ⟨r.levels.get ⟨(min level r.max_level - 1).toNat, hidxlt⟩, hget, ?_, ?_⟩
    · rw [hnum _ hidxlt]
      omega
    · unfold LabResearchDatabase.get_value
      rw [hr]
      dsimp only
      rw [if_neg (by omega : ¬ level ≤ 0), hminlen,
        if_neg (by omega : ¬ min level r.max_level - 1 < 0), hget]
      rfl

/-- Witness for C7, exercising all three branches on concrete data. -/
theorem get_value_spec_witness :
    sampleLab.get_value "nope" 3 = 1 ∧
    sampleLab.get_value "lab_defense_flat" 0 =
      (if sampleAdditive.boost_type = "multiplicative" then 1 else 0) ∧
    ∃ lvl, pyGet sampleResearch.levels (min 5 sampleResearch.max_level - 1) = some lvl ∧
      lvl.level = min 5 sampleResearch.max_level ∧
      sampleLab.get_value "lab_damage" 5 = lvl.value :=
  ⟨(get_value_spec sampleLab "nope" 3).1 (by with_unfolding_all decide),
   (get_value_spec sampleLab "lab_defense_flat" 0).2.1 sampleAdditive
     (by with_unfolding_all decide) (by decide),
   (get_value_spec sampleLab "lab_damage" 5).2.2 sampleResearch
     (by with_unfolding_all decide) (by with_unfolding_all decide) (by decide)⟩

/-- Fields of a profile other than `levels`, with `updated_at` stamped to the
save time: the frame of `update_level`'s successful cases. -/
def profileFramePreserved (p q : Profile) (now : ℤ) : Prop :=
  q.id = p.id ∧ q.name = p.name ∧ q.created_at = p.created_at ∧
  q.available_coins = p.available_coins ∧ q.lab_levels = p.lab_levels ∧
  q.weights = p.weights ∧ q.tags = p.tags ∧ q.updated_at = now

/-- C10: for a stored profile, `update_level` with level 0 removes the
upgrade id from the levels mapping (the key is absent and `get_level`
returns 0); with level > 0 it sets the mapping to exactly that level; with a
negative level it raises and leaves the store unchanged; and in the
successful cases every field other than `levels` and `updated_at` is
preserved in the returned and persisted profile. -/
theorem update_level_spec (store : ProfileStore) (profile_id upgrade_id : String)
    (level now : ℤ) (p : Profile) (hp : getProfile store profile_id = some p) :
    (level < 0 → updateLevel store profile_id upgrade_id level now =
      (store, Except.error "Level must be >= 0")) ∧
    (level = 0 → (p.levels.map Prod.fst).Nodup →
      ∃ q, updateLevel store profile_id upgrade_id level now =
          (saveProfile store q, Except.ok (some q)) ∧
        dictGet q.levels upgrade_id = none ∧ q.get_level upgrade_id = 0 ∧
        q.levels = dictPop p.levels upgrade_id ∧ profileFramePreserved p q now) ∧
    (0 < level →
      ∃ q, updateLevel store profile_id upgrade_id level now =
          (saveProfile store q, Except.ok (some q)) ∧
        dictGet q.levels upgrade_id = some level ∧
        q.levels = dictSet p.levels upgrade_id level ∧
        profileFramePreserved p q now) := by
  refine ⟨?_, ?_, ?_⟩
  · intro h
    unfold updateLevel
    rw [hp]
    dsimp only
    exact if_pos h
  · intro h hnodup
    subst h
    refine ⟨{ p with levels := dictPop p.levels upgrade_id, updated_at := now }, ?_, ?_, ?_, rfl,
      rfl, rfl, rfl, rfl, rfl, rfl, rfl, rfl⟩
    · unfold updateLevel
      rw [hp]
      dsimp only
      rw [if_neg (by omega), if_pos rfl]
    · exact dictGet_dictPop_self _ _ hnodup
    · unfold Profile.get_level
      rw [dictGet_dictPop_self _ _ hnodup]
      rfl
  · intro h
    refine ⟨{ p with levels := dictSet p.levels upgrade_id level, updated_at := now }, ?_, ?_,
      rfl, rfl, rfl, rfl, rfl, rfl, rfl, rfl, rfl⟩
    · unfold updateLevel
      rw [hp]
      dsimp only
      rw [if_neg (by omega), if_neg (by omega)]
    · exact dictGet_dictSet_self _ _ _

/-- Witness for C10, exercising the error case, the removal case and the
set case on a concrete store. -/
theorem update_level_spec_witness :
    (updateLevel sampleStore "p1" "damage" (-1) 99 =
      (sampleStore, Except.error "Level must be >= 0")) ∧
    (∃ q, updateLevel sampleStore "p1" "damage" 0 99 =
        (saveProfile sampleStore q, Except.ok (some q)) ∧
      dictGet q.levels "damage" = none ∧ q.get_level "damage" = 0 ∧
      q.levels = dictPop sampleProfile.levels "damage" ∧
      profileFramePreserved sampleProfile q 99) ∧
    (∃ q, updateLevel sampleStore "p1" "damage" 3 99 =
        (saveProfile sampleStore q, Except.ok (some q)) ∧
      dictGet q.levels "damage" = some 3 ∧
      q.levels = dictSet sampleProfile.levels "damage" 3 ∧
      profileFramePreserved sampleProfile q 99) :=
  ⟨(update_level_spec sampleStore "p1" "damage" (-1) 99 sampleProfile
      (by with_unfolding_all decide)).1 (by decide),
   (update_level_spec sampleStore "p1" "damage" 0 99 sampleProfile
      (by with_unfolding_all decide)).2.1 rfl (by decide),
   (update_level_spec sampleStore "p1" "damage" 3 99 sampleProfile
      (by with_unfolding_all decide)).2.2 (by decide)⟩

/-- C2: every ranking strategy returns a list sorted by the shared
deterministic key: score descending after rounding to 12 decimal digits,
ties broken by coin cost ascending, further ties by display name
ascending (`sortLE` orders by exactly that key). -/
theorem rank_sorted (upgrades : UpgradeDatabase) (profile : Profile)
    (weights : ScoringWeights) (lab : Option LabResearchDatabase) :
    (∀ l, perCategoryRank upgrades profile = some l → l.Sorted sortLE) ∧
    (∀ l, balancedRank weights upgrades profile = some l → l.Sorted sortLE) ∧
    (∀ l, referenceRank lab upgrades profile = some l → l.Sorted sortLE) := by
  refine ⟨?_, ?_, ?_⟩
  · intro l hl
    unfold perCategoryRank at hl
    cases h : perCategoryLoop profile upgrades.upgrades [] with
    | none => rw [h] at hl; simp at hl
    | some best =>
      rw [h, Option.map_some', Option.some_inj] at hl
      rw [← hl]
      exact List.sorted_insertionSort sortLE _
  · intro l hl
    unfold balancedRank at hl
    cases h : balancedLoop weights profile upgrades.upgrades with
    | none => rw [h] at hl; simp at hl
    | some results =>
      rw [h, Option.map_some', Option.some_inj] at hl
      rw [← hl]
      exact List.sorted_insertionSort sortLE _
  · intro l hl
    unfold referenceRank at hl
    cases h1 : mkDPSState upgrades profile lab with
    | none => rw [h1] at hl; simp at hl
    | some st =>
      rw [h1] at hl
      simp only [Option.bind_eq_bind, Option.some_bind] at hl
      cases h2 : referenceLoop lab profile st (compute_dps st) upgrades.upgrades with
      | none => rw [h2] at hl; simp at hl
      | some results =>
        rw [h2] at hl
        simp only [Option.some_bind, Option.some_inj] at hl
        rw [← hl]
        exact List.sorted_insertionSort sortLE _

/-- Witness for C2: the three engines' outputs on the concrete sample data
are sorted. -/
theorem rank_sorted_witness :
    List.Sorted sortLE pcOut ∧ List.Sorted sortLE balOut ∧ List.Sorted sortLE refOut :=
  ⟨(rank_sorted sampleDB sampleProfile ⟨1, 1, 1⟩ none).1 pcOut (by with_unfolding_all rfl),
   (rank_sorted sampleDB sampleProfile ⟨1, 1, 1⟩ none).2.1 balOut (by with_unfolding_all rfl),
   (rank_sorted sampleDB sampleProfile ⟨1, 1, 1⟩ none).2.2 refOut (by with_unfolding_all rfl)⟩

/-- The comparison point for C5, following the spec's words: rank every
non-maxed upgrade by the raw (unweighted) marginal score from
`compute_marginal_score`, excluding non-positive raw scores, under the
shared sort key.  `method` only labels the produced entries. -/
def rawLoop (method : String) (profile : Profile) :
    List UpgradeDefinition → Option (List RankedUpgrade)
  | [] => some []
  | u :: rest =>
    let current_level := profile.get_level u.id
    if u.max_level ≤ current_level then rawLoop method profile rest
    else
      match compute_marginal_score u current_level with
      | none => none
      | some (score, cost, cur_eff, nxt_eff, mb) =>
        if score ≤ 0 then rawLoop method profile rest
        else
          (rawLoop method profile rest).map
            (fun l => build_ranked u profile score cost cur_eff nxt_eff mb method :: l)

/-- Raw marginal-score ranking under the shared sort key (spec words for
C5's comparison). -/
def rawRank (method : String) (upgrades : UpgradeDatabase) (profile : Profile) :
    Option (List RankedUpgrade) :=
  (rawLoop method profile upgrades.upgrades).map (List.insertionSort sortLE)

theorem for_category_ones (category : String) :
    ScoringWeights.for_category ⟨1, 1, 1⟩ category = 1 := by
  unfold ScoringWeights.for_category
  split_ifs <;> rfl

theorem balancedLoop_ones (profile : Profile) (us : List UpgradeDefinition) :
    balancedLoop ⟨1, 1, 1⟩ profile us = rawLoop "balanced" profile us := by
  induction us with
  | nil => rfl
  | cons u rest ih =>
    simp only [balancedLoop, rawLoop]
    cases hc : compute_marginal_score u (profile.get_level u.id) with
    | none => simp [ih]
    | some t =>
      obtain ⟨s, c, ce, ne, mb⟩ := t
      simp [ih, for_category_ones]

/-- C5: the balanced engine with all three weights at 1.0 returns exactly
the raw marginal-score ranking — the same upgrades in the same order with
identical scores (weighting by 1 is the identity). -/
theorem balanced_neutral_eq_raw (upgrades : UpgradeDatabase) (profile : Profile) :
    balancedRank ⟨1, 1, 1⟩ upgrades profile = rawRank "balanced" upgrades profile := by
  unfold balancedRank rawRank
  rw [balancedLoop_ones]

theorem dictGet_mem {α : Type} {l : List (String × α)} {k : String} {v : α}
    (h : dictGet l k = some v) : (k, v) ∈ l := by
  induction l with
  | nil => simp [dictGet] at h
  | cons p t ih =>
    obtain ⟨a, b⟩ := p
    by_cases hak : a = k
    · subst hak
      simp [dictGet] at h
      subst h
      exact List.mem_cons_self _ _
    · simp [dictGet, hak] at h
      exact List.mem_cons_of_mem _ (ih h)

theorem dictSet_append_of_not_mem {α : Type} {l : List (String × α)} {k : String}
    (h : k ∉ l.map Prod.fst) (v : α) : dictSet l k v = l ++ [(k, v)] := by
  induction l with
  | nil => rfl
  | cons p t ih =>
    obtain ⟨a, b⟩ := p
    simp only [List.map_cons, List.mem_cons, not_or] at h
    have hak : ¬ a = k := fun hh => h.1 hh.symm
    simp [dictSet, hak, ih h.2]

theorem dictSet_keys_of_mem {α : Type} {l : List (String × α)} {k : String}
    (h : k ∈ l.map Prod.fst) (v : α) : (dictSet l k v).map Prod.fst = l.map Prod.fst := by
  induction l with
  | nil => simp at h
  | cons p t ih =>
    obtain ⟨a, b⟩ := p
    by_cases hak : a = k
    · subst hak
      simp [dictSet]
    · have hk : k ∈ t.map Prod.fst := by
        simp only [List.map_cons, List.mem_cons] at h
        rcases h with h | h
        · exact absurd h.symm hak
        · exact h
      simp [dictSet, hak, ih hk]

theorem mem_dictSet_nodup {α : Type} {l : List (String × α)} {k : String} {v : α}
    (hnd : (l.map Prod.fst).Nodup) (p : String × α) :
    p ∈ dictSet l k v ↔ p = (k, v) ∨ (p ∈ l ∧ p.1 ≠ k) := by
  induction l with
  | nil => simp [dictSet]
  | cons q t ih =>
    obtain ⟨a, b⟩ := q
    simp only [List.map_cons, List.nodup_cons] at hnd
    by_cases hak : a = k
    · subst hak
      simp only [dictSet, if_pos rfl]
      constructor
      · intro hp
        rcases List.mem_cons.mp hp with h | h
        · exact Or.inl h
        · refine Or.inr ⟨List.mem_cons_of_mem _ h, fun hpk => ?_⟩
          exact hnd.1 (hpk ▸ List.mem_map_of_mem Prod.fst h)
      · intro hp
        rcases hp with h | ⟨hmem, hne⟩
        · exact h ▸ List.mem_cons_self _ _
        · rcases List.mem_cons.mp hmem with h | h
          · exact absurd (congrArg Prod.fst h) (by simpa using hne)
          · exact List.mem_cons_of_mem _ h
    · simp only [dictSet, if_neg hak]
      constructor
      · intro hp
        rcases List.mem_cons.mp hp with h | h
        · subst h
          exact Or.inr ⟨List.mem_cons_self _ _, hak⟩
        · rcases (ih hnd.2).mp h with h2 | ⟨h2, h3⟩
          · exact Or.inl h2
          · exact Or.inr ⟨List.mem_cons_of_mem _ h2, h3⟩
      · intro hp
        rcases hp with h | ⟨hmem, hne⟩
        · exact List.mem_cons_of_mem _ ((ih hnd.2).mpr (Or.inl h))
        · rcases List.mem_cons.mp hmem with h | h
          · exact h ▸ List.mem_cons_self _ _
          · exact List.mem_cons_of_mem _ ((ih hnd.2).mpr (Or.inr ⟨h, hne⟩))

theorem dictGet_of_mem_nodup {α : Type} {l : List (String × α)} {k : String} {a : α}
    (hnd : (l.map Prod.fst).Nodup) (h : (k, a) ∈ l) : dictGet l k = some a := by
  induction l with
  | nil => cases h
  | cons q t ih =>
    obtain ⟨x, y⟩ := q
    simp only [List.map_cons, List.nodup_cons] at hnd
    rcases List.mem_cons.mp h with h1 | h1
    · cases h1
      simp [dictGet]
    · by_cases hxk : x = k
      · subst hxk
        exact absurd (List.mem_map_of_mem Prod.fst h1) (by simpa using hnd.1)
      · simp [dictGet, hxk, ih hnd.2 h1]

/-- An upgrade a ranking pass keeps: not maxed in the profile, and its
marginal score computes to a strictly positive value. -/
def Eligible (profile : Profile) (u : UpgradeDefinition) : Prop :=
  profile.get_level u.id < u.max_level ∧
  ∃ s c ce ne mb,
    compute_marginal_score u (profile.get_level u.id) = some (s, c, ce, ne, mb) ∧ 0 < s

/-- `r` is the ranked entry the per-category engine builds from `u`. -/
def WinnerOf (profile : Profile) (u : UpgradeDefinition) (r : RankedUpgrade) : Prop :=
  ∃ s c ce ne mb,
    compute_marginal_score u (profile.get_level u.id) = some (s, c, ce, ne, mb) ∧ 0 < s ∧
    r = build_ranked u profile s c ce ne mb "per_category_best"

/-- `r` is minimal under the shared sort key among the entries the
per-category engine would build for the eligible upgrades of category `cat`
in `S`. -/
def MinimalIn (profile : Profile) (S : List UpgradeDefinition) (cat : String)
    (r : RankedUpgrade) : Prop :=
  ∀ u ∈ S, u.category = cat → Eligible profile u →
    ∀ s c ce ne mb,
      compute_marginal_score u (profile.get_level u.id) = some (s, c, ce, ne, mb) →
      sort_key r ≤ sort_key (build_ranked u profile s c ce ne mb "per_category_best")

theorem perCategoryLoop_inv (profile : Profile) :
    ∀ (us : List UpgradeDefinition) (best : List (String × RankedUpgrade))
      (S : List UpgradeDefinition) (result : List (String × RankedUpgrade)),
      perCategoryLoop profile us best = some result →
      (best.map Prod.fst).Nodup →
      (∀ p ∈ best, p.2.category = p.1) →
      (∀ p ∈ best, ∃ u ∈ S, u.category = p.1 ∧ Eligible profile u ∧
        WinnerOf profile u p.2) →
      (∀ p ∈ best, MinimalIn profile S p.1 p.2) →
      (∀ u ∈ S, Eligible profile u → u.category ∈ best.map Prod.fst) →
      (result.map Prod.fst).Nodup ∧
      (∀ p ∈ result, p.2.category = p.1) ∧
      (∀ p ∈ result, ∃ u ∈ S ++ us, u.category = p.1 ∧ Eligible profile u ∧
        WinnerOf profile u p.2) ∧
      (∀ p ∈ result, MinimalIn profile (S ++ us) p.1 p.2) := by
  intro us
  induction us with
  | nil =>
    intro best S result hl hnd hcat horig hmin _
    simp only [perCategoryLoop, Option.some_inj] at hl
    subst hl
    rw [List.append_nil]
    exact ⟨hnd, hcat, horig, hmin⟩
  | cons u rest ih =>
    intro best S result hl hnd hcat horig hmin hcov
    have hS : S ++ u :: rest = (S ++ [u]) ++ rest := by simp
    rw [hS]
    simp only [perCategoryLoop] at hl
    by_cases hm : u.max_level ≤ profile.get_level u.id
    · rw [if_pos hm] at hl
      have hnel : ¬ Eligible profile u := fun he => absurd he.1 (not_lt.mpr hm)
      refine ih best (S ++ [u]) result hl hnd hcat ?_ ?_ ?_
      · intro p hp
        obtain ⟨v, hv, h⟩ := horig p hp
        exact ⟨v, List.mem_append_left _ hv, h⟩
      · intro p hp v hv hcat2 hel2
        rcases List.mem_append.mp hv with h | h
        · exact hmin p hp v h hcat2 hel2
        · have := List.mem_singleton.mp h
          subst this
          exact absurd hel2 hnel
      · intro v hv hel2
        rcases List.mem_append.mp hv with h | h
        · exact hcov v h hel2
        · have := List.mem_singleton.mp h
          subst this
          exact absurd hel2 hnel
    · rw [if_neg hm] at hl
      cases hc : compute_marginal_score u (profile.get_level u.id) with
      | none =>
        rw [hc] at hl
        exact absurd hl (by simp)
      | some t =>
        obtain ⟨s, c, ce, ne, mb⟩ := t
        rw [hc] at hl
        dsimp only at hl
        by_cases hs : s ≤ 0
        · rw [if_pos hs] at hl
          have hnel : ¬ Eligible profile u := by
            rintro ⟨h1, s2, c2, ce2, ne2, mb2, hc2, hs2⟩
            rw [hc, Option.some_inj] at hc2
            have hss : s = s2 := congrArg (fun q => q.1) hc2
            exact absurd (hss ▸ hs2) (not_lt.mpr hs)
          refine ih best (S ++ [u]) result hl hnd hcat ?_ ?_ ?_
          · intro p hp
            obtain ⟨v, hv, h⟩ := horig p hp
            exact ⟨v, List.mem_append_left _ hv, h⟩
          · intro p hp v hv hcat2 hel2
            rcases List.mem_append.mp hv with h | h
            · exact hmin p hp v h hcat2 hel2
            · have := List.mem_singleton.mp h
              subst this
              exact absurd hel2 hnel
          · intro v hv hel2
            rcases List.mem_append.mp hv with h | h
            · exact hcov v h hel2
            · have := List.mem_singleton.mp h
              subst this
              exact absurd hel2 hnel
        · rw [if_neg hs] at hl
          have hel : Eligible profile u := ⟨not_le.mp hm, s, c, ce, ne, mb, hc, not_le.mp hs⟩
          have hwin : WinnerOf profile u
              (build_ranked u profile s c ce ne mb "per_category_best") :=
            ⟨s, c, ce, ne, mb, hc, not_le.mp hs, rfl⟩
          have huniq : ∀ s2 c2 ce2 ne2 mb2,
              compute_marginal_score u (profile.get_level u.id) =
                some (s2, c2, ce2, ne2, mb2) →
              build_ranked u profile s2 c2 ce2 ne2 mb2 "per_category_best" =
                build_ranked u profile s c ce ne mb "per_category_best" := by
            intro s2 c2 ce2 ne2 mb2 hc2
            rw [hc, Option.some_inj] at hc2
            obtain ⟨h1, h2, h3, h4, h5⟩ : s = s2 ∧ c = c2 ∧ ce = ce2 ∧ ne = ne2 ∧ mb = mb2 := by
              simpa [Prod.ext_iff] using hc2
            rw [h1, h2, h3, h4, h5]
          cases hfind : dictGet best u.category with
          | none =>
            rw [hfind] at hl
            dsimp only at hl
            have hnotin : u.category ∉ best.map Prod.fst := (dictGet_eq_none_iff _ _).mp hfind
            have hset : dictSet best u.category
                (build_ranked u profile s c ce ne mb "per_category_best") =
                best ++ [(u.category, build_ranked u profile s c ce ne mb
                  "per_category_best")] :=
              dictSet_append_of_not_mem hnotin _
            rw [hset] at hl
            refine ih _ (S ++ [u]) result hl ?_ ?_ ?_ ?_ ?_
            · simp only [List.map_append, List.map_cons, List.map_nil]
              rw [List.nodup_append]
              refine ⟨hnd, List.nodup_singleton _, ?_⟩
              intro x hx hx2
              have := List.mem_singleton.mp hx2
              subst this
              exact hnotin hx
            · intro p hp
              rcases List.mem_append.mp hp with h | h
              · exact hcat p h
              · have := List.mem_singleton.mp h
                subst this
                rfl
            · intro p hp
              rcases List.mem_append.mp hp with h | h
              · obtain ⟨v, hv, h2⟩ := horig p h
                exact ⟨v, List.mem_append_left _ hv, h2⟩
              · have := List.mem_singleton.mp h
                subst this
                exact ⟨u, List.mem_append_right _ (List.mem_singleton.mpr rfl), rfl, hel, hwin⟩
            · intro p hp v hv hcat2 hel2
              rcases List.mem_append.mp hp with h | h
              · rcases List.mem_append.mp hv with h2 | h2
                · exact hmin p h v h2 hcat2 hel2
                · have := List.mem_singleton.mp h2
                  subst this
                  have : v.category ∈ best.map Prod.fst := by
                    rw [hcat2]
                    exact List.mem_map_of_mem Prod.fst h
                  exact absurd this hnotin
              · have := List.mem_singleton.mp h
                subst this
                rcases List.mem_append.mp hv with h2 | h2
                · have : v.category ∈ best.map Prod.fst := hcov v h2 hel2
                  rw [hcat2] at this
                  exact absurd this hnotin
                · have := List.mem_singleton.mp h2
                  subst this
                  intro s2 c2 ce2 ne2 mb2 hc2
                  rw [huniq s2 c2 ce2 ne2 mb2 hc2]
            · intro v hv hel2
              rcases List.mem_append.mp hv with h | h
              · have := hcov v h hel2
                simp only [List.map_append, List.map_cons, List.map_nil]
                exact List.mem_append_left _ this
              · have := List.mem_singleton.mp h
                subst this
                simp
          | some prev =>
            rw [hfind] at hl
            dsimp only at hl
            have hprevmem : (u.category, prev) ∈ best := dictGet_mem hfind
            have hkeymem : u.category ∈ best.map Prod.fst :=
              List.mem_map_of_mem Prod.fst hprevmem
            by_cases hlt : sort_key (build_ranked u profile s c ce ne mb "per_category_best") <
                sort_key prev
            · rw [if_pos hlt] at hl
              refine ih _ (S ++ [u]) result hl ?_ ?_ ?_ ?_ ?_
              · rw [dictSet_keys_of_mem hkeymem]
                exact hnd
              · intro p hp
                rcases (mem_dictSet_nodup hnd p).mp hp with h | ⟨h, -⟩
                · subst h
                  rfl
                · exact hcat p h
              · intro p hp
                rcases (mem_dictSet_nodup hnd p).mp hp with h | ⟨h, -⟩
                · subst h
                  exact ⟨u, List.mem_append_right _ (List.mem_singleton.mpr rfl), rfl, hel, hwin⟩
                · obtain ⟨v, hv, h2⟩ := horig p h
                  exact ⟨v, List.mem_append_left _ hv, h2⟩
              · intro p hp v hv hcat2 hel2
                rcases (mem_dictSet_nodup hnd p).mp hp with h | ⟨h, hne⟩
                · subst h
                  rcases List.mem_append.mp hv with h2 | h2
                  · intro s2 c2 ce2 ne2 mb2 hc2
                    have hple := hmin (u.category, prev) hprevmem v h2 hcat2 hel2 s2 c2 ce2
                      ne2 mb2 hc2
                    exact le_trans (le_of_lt hlt) hple
                  · have := List.mem_singleton.mp h2
                    subst this
                    intro s2 c2 ce2 ne2 mb2 hc2
                    rw [huniq s2 c2 ce2 ne2 mb2 hc2]
                · rcases List.mem_append.mp hv with h2 | h2
                  · exact hmin p h v h2 hcat2 hel2
                  · have := List.mem_singleton.mp h2
                    subst this
                    exact absurd hcat2.symm hne
              · intro v hv hel2
                rw [dictSet_keys_of_mem hkeymem]
                rcases List.mem_append.mp hv with h | h
                · exact hcov v h hel2
                · have := List.mem_singleton.mp h
                  subst this
                  exact hkeymem
            · rw [if_neg hlt] at hl
              refine ih best (S ++ [u]) result hl hnd hcat ?_ ?_ ?_
              · intro p hp
                obtain ⟨v, hv, h2⟩ := horig p hp
                exact ⟨v, List.mem_append_left _ hv, h2⟩
              · intro p hp v hv hcat2 hel2
                rcases List.mem_append.mp hv with h2 | h2
                · exact hmin p hp v h2 hcat2 hel2
                · have := List.mem_singleton.mp h2
                  subst this
                  intro s2 c2 ce2 ne2 mb2 hc2
                  rw [huniq s2 c2 ce2 ne2 mb2 hc2]
                  have hpprev : p.2 = prev := by
                    have hp2 : (p.1, p.2) ∈ best := by simpa using hp
                    rw [← hcat2] at hp2
                    rw [hcat2] at hp2
                    have := dictGet_of_mem_nodup hnd (hcat2 ▸ hp2)
                    rw [hfind] at this
                    exact (Option.some_inj.mp this).symm
                  rw [hpprev]
                  exact le_of_not_lt hlt
              · intro v hv hel2
                rcases List.mem_append.mp hv with h2 | h2
                · exact hcov v h2 hel2
                · have := List.mem_singleton.mp h2
                  subst this
                  exact hkeymem

/-- C3: the per-category output never has two entries of the same category;
every entry arises from an eligible upgrade of the catalog (not maxed in the
profile and with strictly positive marginal score) as the entry the engine
builds for it; and every entry is minimal under the shared sort key among
its category's eligible upgrades. -/
theorem perCategory_invariants (upgrades : UpgradeDatabase) (profile : Profile)
    (l : List RankedUpgrade) (hl : perCategoryRank upgrades profile = some l) :
    l.Pairwise (fun a b => a.category ≠ b.category) ∧
    (∀ r ∈ l, ∃ u ∈ upgrades.upgrades, u.category = r.category ∧
      Eligible profile u ∧ WinnerOf profile u r) ∧
    (∀ r ∈ l, MinimalIn profile upgrades.upgrades r.category r) := by
  unfold perCategoryRank at hl
  cases h : perCategoryLoop profile upgrades.upgrades [] with
  | none => rw [h] at hl; simp at hl
  | some best =>
    rw [h, Option.map_some', Option.some_inj] at hl
    obtain ⟨hnd, hcat, horig, hmin⟩ :=
      perCategoryLoop_inv profile upgrades.upgrades [] [] best h (by simp) (by simp)
        (by simp) (by simp) (by simp)
    rw [List.nil_append] at horig hmin
    subst hl
    have hperm := List.perm_insertionSort sortLE (best.map Prod.snd)
    refine ⟨?_, ?_, ?_⟩
    · have hpair : (best.map Prod.snd).Pairwise (fun a b => a.category ≠ b.category) := by
        rw [List.pairwise_map]
        have hpk : best.Pairwise (fun p q => p.1 ≠ q.1) := List.pairwise_map.mp hnd
        exact hpk.imp_of_mem (fun {p q} hp hq hne => by
          rw [hcat p hp, hcat q hq]
          exact hne)
      exact (hperm.pairwise_iff (fun {a b} hab e => hab e.symm)).mpr hpair
    · intro r hr
      obtain ⟨p, hp, rfl⟩ := List.mem_map.mp (hperm.mem_iff.mp hr)
      obtain ⟨v, hv, hcat2, hel, hwin⟩ := horig p hp
      refine ⟨v, hv, ?_, hel, hwin⟩
      rw [hcat p hp]
      exact hcat2
    · intro r hr
      obtain ⟨p, hp, rfl⟩ := List.mem_map.mp (hperm.mem_iff.mp hr)
      rw [hcat p hp]
      exact hmin p hp

/-- The defense entry `perCategoryRank` produces on the sample data. -/
def healthEntry : RankedUpgrade :=
  ⟨"health", "Health", "defense", 0, 1, 40, 10, 30, 20, 1 / 2, true, "per_category_best"⟩

/-- The attack entry `perCategoryRank` produces on the sample data (the
damage upgrade beats the attack-speed upgrade within the category). -/
def damageEntry : RankedUpgrade :=
  ⟨"damage", "Damage", "attack", 1, 2, 120, 5, 9, 4, 33333333333 / 1000000000000, false,
    "per_category_best"⟩

set_option maxRecDepth 8000 in
/-- Witness for C3 on the sample data, at the concrete attack entry. -/
theorem perCategory_invariants_witness :
    List.Pairwise (fun a b => a.category ≠ b.category) [healthEntry, damageEntry] ∧
    (∃ u ∈ sampleDB.upgrades, u.category = damageEntry.category ∧
      Eligible sampleProfile u ∧ WinnerOf sampleProfile u damageEntry) ∧
    MinimalIn sampleProfile sampleDB.upgrades damageEntry.category damageEntry := by
  have h := perCategory_invariants sampleDB sampleProfile [healthEntry, damageEntry]
    (by with_unfolding_all rfl)
  exact ⟨h.1, h.2.1 damageEntry (by simp), h.2.2 damageEntry (by simp)⟩

theorem balancedLoop_mem (weights : ScoringWeights) (profile : Profile) :
    ∀ (us : List UpgradeDefinition) (l : List RankedUpgrade),
      balancedLoop weights profile us = some l →
      ∀ r ∈ l, ∃ u ∈ us, ∃ s c ce ne mb,
        compute_marginal_score u (profile.get_level u.id) = some (s, c, ce, ne, mb) ∧
        profile.get_level u.id < u.max_level ∧ 0 < s ∧
        r = build_ranked u profile (s * weights.for_category u.category) c ce ne mb
          "balanced" := by
  intro us
  induction us with
  | nil =>
    intro l hl r hr
    simp only [balancedLoop, Option.some_inj] at hl
    subst hl
    cases hr
  | cons u rest ih =>
    intro l hl r hr
    simp only [balancedLoop] at hl
    by_cases hm : u.max_level ≤ profile.get_level u.id
    · rw [if_pos hm] at hl
      obtain ⟨v, hv, h⟩ := ih l hl r hr
      exact ⟨v, List.mem_cons_of_mem _ hv, h⟩
    · rw [if_neg hm] at hl
      cases hc : compute_marginal_score u (profile.get_level u.id) with
      | none => rw [hc] at hl; exact absurd hl (by simp)
      | some t =>
        obtain ⟨s, c, ce, ne, mb⟩ := t
        rw [hc] at hl
        dsimp only at hl
        by_cases hs : s ≤ 0
        · rw [if_pos hs] at hl
          obtain ⟨v, hv, h⟩ := ih l hl r hr
          exact ⟨v, List.mem_cons_of_mem _ hv, h⟩
        · rw [if_neg hs] at hl
          cases hrest : balancedLoop weights profile rest with
          | none => rw [hrest] at hl; exact absurd hl (by simp)
          | some tl =>
            rw [hrest, Option.map_some', Option.some_inj] at hl
            subst hl
            rcases List.mem_cons.mp hr with h | h
            · exact ⟨u, List.mem_cons_self _ _, s, c, ce, ne, mb, hc, not_le.mp hm,
                not_le.mp hs, h⟩
            · obtain ⟨v, hv, h2⟩ := ih tl hrest r h
              exact ⟨v, List.mem_cons_of_mem _ hv, h2⟩

/-- C9: in the balanced output, an entry whose category has weight 0 never
has a strictly positive (rounded, stored) score, and every entry stems from
an upgrade whose raw pre-weight marginal score is strictly positive (the
`≤ 0` filter runs before weighting). -/
theorem balanced_zero_weight (weights : ScoringWeights) (upgrades : UpgradeDatabase)
    (profile : Profile) (l : List RankedUpgrade)
    (hl : balancedRank weights upgrades profile = some l) :
    ∀ r ∈ l, (weights.for_category r.category = 0 → ¬ 0 < r.score) ∧
      ∃ u ∈ upgrades.upgrades, r.upgrade_id = u.id ∧
        ∃ s c ce ne mb,
          compute_marginal_score u (profile.get_level u.id) = some (s, c, ce, ne, mb) ∧
          0 < s := by
  intro r hr
  unfold balancedRank at hl
  cases h : balancedLoop weights profile upgrades.upgrades with
  | none => rw [h] at hl; simp at hl
  | some results =>
    rw [h, Option.map_some', Option.some_inj] at hl
    subst hl
    have hr2 : r ∈ results := (List.perm_insertionSort sortLE results).mem_iff.mp hr
    obtain ⟨u, hu, s, c, ce, ne, mb, hc, hlt, hs, hr_eq⟩ :=
      balancedLoop_mem weights profile upgrades.upgrades results h r hr2
    subst hr_eq
    constructor
    · intro hw0
      have hcat : (build_ranked u profile (s * weights.for_category u.category) c ce ne mb
          "balanced").category = u.category := rfl
      rw [hcat] at hw0
      have hsc : (build_ranked u profile (s * weights.for_category u.category) c ce ne mb
          "balanced").score =
          pyRound (s * weights.for_category u.category) SCORE_PRECISION := rfl
      rw [hsc, hw0, mul_zero, pyRound_zero]
      exact lt_irrefl 0
    · exact ⟨u, hu, rfl, s, c, ce, ne, mb, hc, hs⟩

/-- Witness for C9 on the sample data with the attack weight zeroed: the
attack-speed entry sits in the output with score 0, and its raw score is
positive. -/
theorem balanced_zero_weight_witness :
    (zeroAttackWeights.for_category (balOutZero.getD 1 defaultRanked).category = 0 →
      ¬ 0 < (balOutZero.getD 1 defaultRanked).score) ∧
    ∃ u ∈ sampleDB.upgrades, (balOutZero.getD 1 defaultRanked).upgrade_id = u.id ∧
      ∃ s c ce ne mb,
        compute_marginal_score u (sampleProfile.get_level u.id) = some (s, c, ce, ne, mb) ∧
        0 < s :=
  balanced_zero_weight zeroAttackWeights sampleDB sampleProfile balOutZero
    (by with_unfolding_all rfl) (balOutZero.getD 1 defaultRanked)
    (by with_unfolding_all decide)

end Tower
